import Mathlib

/-!
Verification development for the Stage diagram subsystem of the
auth-illustration repository, centred on `EdgeLayer.tsx`: the Node
Registry measurement pass (`updateNodePositions`), the Route Planner
(`calculatePaths`), the render layer (markers, paths, label chips) and
the Pulse Animator (dash-offset animation loop).

Coordinates are embedded as rationals (`ℚ`); the JavaScript `Map` is
embedded as an association list with `Map.set` replacement semantics.
-/

/-- A 2-D point in Stage pixel space. -/
structure Pt where
  x : ℚ
  y : ℚ
deriving DecidableEq

/-- A measured node box, as stored in the Node Registry
(`nodesDataRef`): top-left corner plus width and height. -/
structure NodeData where
  x : ℚ
  y : ℚ
  w : ℚ
  h : ℚ
deriving DecidableEq

/-- An edge declaration, mirroring the `Edge` interface of
`EdgeLayer.tsx`.  Optional fields are `Option`-valued: `none` means the
field was omitted (so e.g. `visible` defaults to true because the code
only tests `edge.visible === false`). -/
structure Edge where
  id : String
  from_ : String
  to_ : String
  label : Option String := none
  dashed : Option Bool := none
  pulse : Option Bool := none
  visible : Option Bool := none
  color : Option String := none
deriving DecidableEq

/-- A computed route: the polyline vertices of the SVG path and the
label anchor position. -/
structure PathResult where
  points : List Pt
  labelPos : Pt
deriving DecidableEq

/-- JavaScript `Map.set` on an association list: replace the binding in
place if the key is present, otherwise append. -/
def mapSet {α : Type} : List (String × α) → String → α → List (String × α)
  | [], k, v => [(k, v)]
  | (k', v') :: rest, k, v =>
      if k' = k then (k, v) :: rest else (k', v') :: mapSet rest k v

/-- Center of a measured box (`fromCenter` / `toCenter` in the code). -/
def centerOf (n : NodeData) : Pt :=
  ⟨n.x + n.w / 2, n.y + n.h / 2⟩

/-- Horizontal center-to-center delta `dx = toCenter.x - fromCenter.x`. -/
def dxOf (f t : NodeData) : ℚ :=
  (centerOf t).x - (centerOf f).x

/-- Vertical center-to-center delta `dy = toCenter.y - fromCenter.y`. -/
def dyOf (f t : NodeData) : ℚ :=
  (centerOf t).y - (centerOf f).y

/-- Anchor selection of `calculatePaths`: if `|dx| > |dy|` use east/west
anchors, otherwise north/south anchors, exactly as in the source. -/
def chooseAnchors (f t : NodeData) : Pt × Pt :=
  let fc := centerOf f
  let tc := centerOf t
  let dx := dxOf f t
  let dy := dyOf f t
  if |dx| > |dy| then
    (⟨fc.x + (if dx > 0 then f.w / 2 else -f.w / 2), fc.y⟩,
     ⟨tc.x + (if dx > 0 then -t.w / 2 else t.w / 2), tc.y⟩)
  else
    (⟨fc.x, fc.y + (if dy > 0 then f.h / 2 else -f.h / 2)⟩,
     ⟨tc.x, tc.y + (if dy > 0 then -t.h / 2 else t.h / 2)⟩)

/-- Obstruction detection of `calculatePaths`: for horizontal-dominant
edges only, every other registered node whose horizontal center lies
strictly between the two endpoint centers; empty otherwise. -/
def intermediatesOf (reg : List (String × NodeData)) (efrom eto : String)
    (f t : NodeData) : List NodeData :=
  let minX := min (centerOf f).x (centerOf t).x
  let maxX := max (centerOf f).x (centerOf t).x
  if |dxOf f t| > |dyOf f t| then
    reg.filterMap (fun p =>
      if p.1 = efrom ∨ p.1 = eto then none
      else if minX < (centerOf p.2).x ∧ (centerOf p.2).x < maxX then some p.2
      else none)
  else []

/-- `Math.min(fromData.y, toData.y, ...intermediateNodes.map(n => n.y))`. -/
def topmostOf (f t : NodeData) (inter : List NodeData) : ℚ :=
  (inter.map (fun n => n.y)).foldl min (min f.y t.y)

/-- `Math.max(fromData.y + h, toData.y + h, ...intermediates bottoms)`. -/
def bottommostOf (f t : NodeData) (inter : List NodeData) : ℚ :=
  (inter.map (fun n => n.y + n.h)).foldl max (max (f.y + f.h) (t.y + t.h))

/-- Route computation for one edge with both endpoint boxes measured:
bypass routing around intermediates when they exist, otherwise the
direct H-V / V-H elbow through the midpoint, exactly as in
`calculatePaths`. -/
def routeEdge (reg : List (String × NodeData)) (efrom eto : String)
    (f t : NodeData) : PathResult :=
  let fc := centerOf f
  let tc := centerOf t
  let dx := dxOf f t
  let dy := dyOf f t
  let se := chooseAnchors f t
  let inter := intermediatesOf reg efrom eto f t
  let midX := (se.1.x + se.2.x) / 2
  let midY := (se.1.y + se.2.y) / 2
  if inter.length > 0 then
    if dx > 0 then
      let bypassY := topmostOf f t inter - 30
      ⟨[⟨fc.x, f.y⟩, ⟨fc.x, bypassY⟩, ⟨tc.x, bypassY⟩, ⟨tc.x, t.y⟩],
       ⟨midX, bypassY - 8⟩⟩
    else
      let bypassY := bottommostOf f t inter + 30
      ⟨[⟨fc.x, f.y + f.h⟩, ⟨fc.x, bypassY⟩, ⟨tc.x, bypassY⟩, ⟨tc.x, t.y + t.h⟩],
       ⟨midX, bypassY - 8⟩⟩
  else if |dx| > |dy| then
    ⟨[se.1, ⟨midX, se.1.y⟩, ⟨midX, se.2.y⟩, se.2], ⟨midX, midY - 8⟩⟩
  else
    ⟨[se.1, ⟨se.1.x, midY⟩, ⟨se.2.x, midY⟩, se.2], ⟨midX, midY - 8⟩⟩

/-- Per-edge body of `calculatePaths`: invisible edges are dropped
first, then both endpoint boxes are looked up; if either is absent the
edge is skipped, otherwise the route is computed. -/
def calcEdge (reg : List (String × NodeData)) (e : Edge) : Option PathResult :=
  if e.visible = some false then none
  else
    match reg.lookup e.from_, reg.lookup e.to_ with
    | some f, some t => some (routeEdge reg e.from_ e.to_ f t)
    | _, _ => none

/-- The whole `calculatePaths` pass: fold the edge list into a fresh
paths map (`newPaths`), setting an entry per edge that produced a
route. -/
def calculatePaths (reg : List (String × NodeData)) (edges : List Edge) :
    List (String × PathResult) :=
  edges.foldl
    (fun m e =>
      match calcEdge reg e with
      | some r => mapSet m e.id r
      | none => m)
    []

/-- Edges that survive the render filter
(`edges.filter((edge) => edge.visible !== false)`). -/
def visibleEdgesOf (edges : List Edge) : List Edge :=
  edges.filter (fun e => e.visible ≠ some false)

/-- Ids of the arrowhead `marker` elements emitted in the `defs` block:
one per visible edge, named `arrowhead-<id>`. -/
def renderedMarkerIds (edges : List Edge) : List String :=
  (visibleEdgesOf edges).map (fun e => "arrowhead-" ++ e.id)

/-- Ids of the edges for which a drawable `path` element is emitted: a
visible edge whose entry is present in the computed paths map
(`if (!pathData) return null`). -/
def renderedPathIds (reg : List (String × NodeData)) (edges : List Edge) :
    List String :=
  (visibleEdgesOf edges).filterMap (fun e =>
    match (calculatePaths reg edges).lookup e.id with
    | some _ => some e.id
    | none => none)

/-- Deterministic rendering of a polyline as the SVG path-command
string `M x y L x y ...` built by the source's template literal. -/
def pathD (r : PathResult) : String :=
  match r.points with
  | [] => ""
  | p :: rest =>
      "M " ++ toString p.x ++ " " ++ toString p.y ++
        String.join (rest.map (fun q => " L " ++ toString q.x ++ " " ++ toString q.y))

/-- One full route-computation pass as observed by the renderer: per
edge id, the path string and the label position. -/
def renderPass (reg : List (String × NodeData)) (edges : List Edge) :
    List (String × String × Pt) :=
  (calculatePaths reg edges).map (fun p => (p.1, pathD p.2, p.2.labelPos))

/-- `edges.some((e) => e.pulse && e.visible !== false)`: does any
visible edge request pulsing? -/
def hasPulsing (edges : List Edge) : Bool :=
  edges.any (fun e => e.pulse == some true && e.visible != some false)

/-- One animation step of the Pulse Animator: while some visible edge
pulses, a frame advances the dash offset by 2 modulo 20
(`setDashOffset((prev) => (prev + 2) % 20)`); otherwise no frame is
scheduled and the phase stays frozen. -/
def pulseFrame (edges : List Edge) (phase : ℕ) : ℕ :=
  if hasPulsing edges then (phase + 2) % 20 else phase

/-- Removes the first occurrence of the substring `px`, as
`str.replace('px', '')` does. -/
def removeFirstPx : List Char → List Char
  | 'p' :: 'x' :: rest => rest
  | c :: rest => c :: removeFirstPx rest
  | [] => []

/-- Removes every character that is not a digit or a dot, as
`str.replace(/[^\d.]/g, '')` does. -/
def stripNonNum (l : List Char) : List Char :=
  l.filter (fun c => c.isDigit || c = '.')

/-- Decimal value of a digit string. -/
def digitsToNat (l : List Char) : ℕ :=
  l.foldl (fun n c => n * 10 + (c.toNat - 48)) 0

/-- Value of a fractional digit string `d₁d₂…` read after the dot. -/
def fracVal : List Char → ℚ
  | [] => 0
  | c :: cs => ((c.toNat - 48 : ℕ) + fracVal cs) / 10

/-- JavaScript `parseFloat` restricted to the digit-and-dot strings the
pipeline feeds it: longest prefix `digits [. digits]`; `none` models
`NaN` (no digits consumed). -/
def parseFloatFiltered (l : List Char) : Option ℚ :=
  let intPart := l.takeWhile Char.isDigit
  let rest := l.dropWhile Char.isDigit
  match rest with
  | '.' :: rest2 =>
      let fracPart := rest2.takeWhile Char.isDigit
      if intPart = [] ∧ fracPart = [] then none
      else some ((digitsToNat intPart : ℚ) + fracVal fracPart)
  | _ => if intPart = [] then none else some (digitsToNat intPart)

/-- The whole position parser of `updateNodePositions`:
`parseFloat(str.replace('px','').replace(/[^\d.]/g, '')) || 0`. -/
def parseCoordChars (l : List Char) : ℚ :=
  match parseFloatFiltered (stripNonNum (removeFirstPx l)) with
  | some q => q
  | none => 0

/-- String-level wrapper of the position parser. -/
def parseCoord (s : String) : ℚ :=
  parseCoordChars s.data

/-- The observable state of a mounted node element: its inline `left`
and `top` style strings and its offset width/height. -/
structure ElModel where
  left : String
  top : String
  offsetWidth : ℚ
  offsetHeight : ℚ
deriving DecidableEq

/-- Measurement of one element in `updateNodePositions`: parsed
left/top, width defaulting to 220 and height to 120 when the offset
size is 0 (`el.offsetWidth || 220`, `el.offsetHeight || 120`). -/
def measureEl (el : ElModel) : NodeData :=
  { x := parseCoord el.left
    y := parseCoord el.top
    w := if el.offsetWidth = 0 then 220 else el.offsetWidth
    h := if el.offsetHeight = 0 then 120 else el.offsetHeight }

/-- A registry refresh pass (`updateNodePositions`): unmounted refs
(`!ref?.current`) are skipped; each mounted element is measured and, if
its parsed coordinates are non-negative, written into a fresh map. -/
def updateNodePositions (refs : List (String × Option ElModel)) :
    List (String × NodeData) :=
  refs.foldl
    (fun m p =>
      match p.2 with
      | none => m
      | some el =>
          let nd := measureEl el
          if 0 ≤ nd.x ∧ 0 ≤ nd.y then mapSet m p.1 nd else m)
    []

/-- Label chip left offset: `Math.min(80, edge.label.length * 5)`. -/
def chipOffset (len : ℕ) : ℕ :=
  min 80 (len * 5)

/-- Label chip width: `Math.min(160, edge.label.length * 10)`. -/
def chipWidth (len : ℕ) : ℕ :=
  min 160 (len * 10)

/-- Membership of a point on the closed segment from `p` to `q`. -/
def onSeg (p q r : Pt) : Prop :=
  ∃ s : ℚ, 0 ≤ s ∧ s ≤ 1 ∧
    r.x = p.x + s * (q.x - p.x) ∧ r.y = p.y + s * (q.y - p.y)

/-- Consecutive vertex pairs of a polyline. -/
def segsOf (pts : List Pt) : List (Pt × Pt) :=
  pts.zip pts.tail

/-- Membership of a point on a polyline (on one of its segments). -/
def onPath (pts : List Pt) (r : Pt) : Prop :=
  ∃ pq ∈ segsOf pts, onSeg pq.1 pq.2 r

/-- Strict interior of a node's bounding box. -/
def inInterior (n : NodeData) (r : Pt) : Prop :=
  n.x < r.x ∧ r.x < n.x + n.w ∧ n.y < r.y ∧ r.y < n.y + n.h

/-- Closed bounding box of a node. -/
def inBox (n : NodeData) (r : Pt) : Prop :=
  n.x ≤ r.x ∧ r.x ≤ n.x + n.w ∧ n.y ≤ r.y ∧ r.y ≤ n.y + n.h

/-- The polyline passes through the interior of the node's box. -/
def crossesInterior (pts : List Pt) (n : NodeData) : Prop :=
  ∃ r : Pt, onPath pts r ∧ inInterior n r

/-- The polyline intersects the node's closed bounding box. -/
def meetsBox (pts : List Pt) (n : NodeData) : Prop :=
  ∃ r : Pt, onPath pts r ∧ inBox n r

/-- Every segment of the polyline is axis-aligned. -/
def orthogonalPolyline (pts : List Pt) : Prop :=
  ∀ pq ∈ segsOf pts, pq.1.x = pq.2.x ∨ pq.1.y = pq.2.y

/-- Number of bends of a polyline: interior vertices at which the two
adjacent segments are not collinear. -/
def bends : List Pt → ℕ
  | p :: q :: r :: rest =>
      (if (q.x - p.x) * (r.y - q.y) = (q.y - p.y) * (r.x - q.x) then 0 else 1) +
        bends (q :: r :: rest)
  | _ => 0

/-- A third node lies strictly between the two endpoint centers along
the dominant axis of the edge (x-range when horizontal-dominant,
y-range otherwise). -/
def betweenDominant (f t n : NodeData) : Prop :=
  if |dxOf f t| > |dyOf f t| then
    min (centerOf f).x (centerOf t).x < (centerOf n).x ∧
      (centerOf n).x < max (centerOf f).x (centerOf t).x
  else
    min (centerOf f).y (centerOf t).y < (centerOf n).y ∧
      (centerOf n).y < max (centerOf f).y (centerOf t).y

/-- Fixture: two nodes side by side on the same row (the spec's
end-to-end scenario `a(x=0)`, `b(x=300)`), measured with width 100 and
the default height 120. -/
def regAB : List (String × NodeData) :=
  [("a", ⟨0, 0, 100, 120⟩), ("b", ⟨300, 0, 100, 120⟩)]

/-- Fixture: the edge `a→b` of the side-by-side scenario. -/
def edgeAB : Edge :=
  { id := "ab", from_ := "a", to_ := "b" }

/-- Fixture: two nodes offset both horizontally and vertically, with no
third node. -/
def regZ : List (String × NodeData) :=
  [("a", ⟨0, 0, 100, 100⟩), ("b", ⟨300, 100, 100, 100⟩)]

/-- Fixture: the edge `a→b` of the offset scenario. -/
def edgeZ : Edge :=
  { id := "zb", from_ := "a", to_ := "b" }

/-- Fixture: three nodes stacked vertically, `b` between `a` and `c`. -/
def regV : List (String × NodeData) :=
  [("a", ⟨0, 0, 100, 100⟩), ("b", ⟨0, 300, 100, 100⟩), ("c", ⟨0, 600, 100, 100⟩)]

/-- Fixture: the vertical edge `a→c` across the stacked column. -/
def edgeV : Edge :=
  { id := "ac", from_ := "a", to_ := "c" }

/-- Fixture: a wide tall node `b` whose horizontal center lies between
`a` and `c` but whose box also covers `a`'s center column. -/
def regW : List (String × NodeData) :=
  [("a", ⟨0, 300, 100, 100⟩), ("b", ⟨0, 0, 200, 400⟩), ("c", ⟨300, 300, 100, 100⟩)]

/-- Fixture: the horizontal edge `a→c` past the wide node. -/
def edgeW : Edge :=
  { id := "wc", from_ := "a", to_ := "c" }

/-- Fixture: a wide node `b` between `a` and `c` that sticks out above
them and covers `a`'s center column. -/
def regW2 : List (String × NodeData) :=
  [("a", ⟨0, 300, 100, 100⟩), ("b", ⟨0, 0, 220, 260⟩), ("c", ⟨300, 300, 100, 100⟩)]

/-- Fixture: the horizontal edge `a→c` past the sticking-out node. -/
def edgeW2 : Edge :=
  { id := "w2", from_ := "a", to_ := "c" }

/-- Fixture: three nodes in a row (`a(x=0) b(x=300) c(x=600)`), the
spec's bypass scenario. -/
def regB3 : List (String × NodeData) :=
  [("a", ⟨0, 100, 100, 100⟩), ("b", ⟨300, 100, 100, 100⟩), ("c", ⟨600, 100, 100, 100⟩)]

/-- Fixture: the edge `a→c` over the middle node `b`. -/
def edgeB3 : Edge :=
  { id := "b3", from_ := "a", to_ := "c" }

/-- Fixture: a hidden edge and a visible edge over the same nodes. -/
def edgeHidden : Edge :=
  { id := "hid", from_ := "a", to_ := "b", visible := some false }

/-- Fixture: the visible companion of `edgeHidden`. -/
def edgeShown : Edge :=
  { id := "shn", from_ := "a", to_ := "b" }

/-- Fixture: a registry in which only `a` is measured. -/
def regMiss : List (String × NodeData) :=
  [("a", ⟨0, 0, 100, 120⟩)]

/-- Fixture: a pulsing edge. -/
def edgePulse : Edge :=
  { id := "pul", from_ := "a", to_ := "b", pulse := some true }

/-- Fixture: one mounted element with a negative inline left position,
and one unmounted ref. -/
def refs9 : List (String × Option ElModel) :=
  [("n1", some ⟨"-50px", "10px", 220, 120⟩), ("n2", none)]


theorem lookup_cons_pair {α : Type} (a k : String) (b : α) (l : List (String × α)) :
    List.lookup k ((a, b) :: l) = if a = k then some b else List.lookup k l := by
  by_cases h : a = k
  · subst h
    simp [List.lookup]
  · have hb : (k == a) = false := beq_eq_false_iff_ne.mpr (Ne.symm h)
    simp [List.lookup, hb, h]

theorem lookup_mapSet_self {α : Type} (m : List (String × α)) (k : String) (v : α) :
    (mapSet m k v).lookup k = some v := by
  induction m with
  | nil => simp [mapSet, lookup_cons_pair]
  | cons p rest ih =>
      obtain ⟨k', v'⟩ := p
      by_cases h : k' = k
      · simp [mapSet, h, lookup_cons_pair]
      · simp [mapSet, h, lookup_cons_pair, ih]

theorem lookup_mapSet_ne {α : Type} (m : List (String × α)) (k k' : String) (v : α)
    (h : k' ≠ k) : (mapSet m k v).lookup k' = m.lookup k' := by
  induction m with
  | nil => simp [mapSet, lookup_cons_pair, Ne.symm h]
  | cons p rest ih =>
      obtain ⟨k₀, v₀⟩ := p
      by_cases h0 : k₀ = k
      · subst h0
        simp [mapSet, lookup_cons_pair, Ne.symm h]
      · simp [mapSet, h0, lookup_cons_pair, ih]

theorem lookup_calcFold_frame (reg : List (String × NodeData)) (edges : List Edge)
    (eid : String) (h : ∀ e ∈ edges, e.id ≠ eid) :
    ∀ m : List (String × PathResult),
      ((edges.foldl
          (fun m e =>
            match calcEdge reg e with
            | some r => mapSet m e.id r
            | none => m)
          m).lookup eid) = m.lookup eid := by
  induction edges with
  | nil => intro m; rfl
  | cons a rest ih =>
      intro m
      have ha : a.id ≠ eid := h a (by simp)
      have hrest : ∀ e ∈ rest, e.id ≠ eid := fun e he => h e (by simp [he])
      simp only [List.foldl_cons]
      rw [ih hrest]
      cases hc : calcEdge reg a with
      | none => rfl
      | some r => exact lookup_mapSet_ne m a.id eid r (Ne.symm ha)

theorem lookup_calcFold (reg : List (String × NodeData)) (edges : List Edge)
    (e : Edge) (he : e ∈ edges) (hnd : (edges.map (fun x => x.id)).Nodup) :
    ∀ m : List (String × PathResult),
      ((edges.foldl
          (fun m e =>
            match calcEdge reg e with
            | some r => mapSet m e.id r
            | none => m)
          m).lookup e.id) =
        (match calcEdge reg e with
         | some r => some r
         | none => m.lookup e.id) := by
  induction edges with
  | nil => cases he
  | cons a rest ih =>
      intro m
      rcases List.mem_cons.mp he with rfl | hmem
      · have hrest : ∀ e' ∈ rest, e'.id ≠ e.id := by
          intro e' he'
          have : e.id ∉ rest.map (fun x => x.id) := (List.nodup_cons.mp hnd).1
          intro hcontra
          exact this (hcontra ▸ List.mem_map_of_mem (fun x => x.id) he')
        simp only [List.foldl_cons]
        rw [lookup_calcFold_frame reg rest e.id hrest]
        cases hc : calcEdge reg e with
        | none => simp
        | some r => simp [lookup_mapSet_self]
      · have hne : a.id ≠ e.id := by
          have : a.id ∉ rest.map (fun x => x.id) := (List.nodup_cons.mp hnd).1
          intro hcontra
          exact this (hcontra ▸ List.mem_map_of_mem (fun x => x.id) hmem)
        simp only [List.foldl_cons]
        rw [ih hmem (List.nodup_cons.mp hnd).2]
        cases hc : calcEdge reg a with
        | none => rfl
        | some r => simp [lookup_mapSet_ne _ _ _ _ (Ne.symm hne)]

theorem lookup_calculatePaths (reg : List (String × NodeData)) (edges : List Edge)
    (e : Edge) (he : e ∈ edges) (hnd : (edges.map (fun x => x.id)).Nodup) :
    (calculatePaths reg edges).lookup e.id = calcEdge reg e := by
  have h := lookup_calcFold reg edges e he hnd []
  unfold calculatePaths
  rw [h]
  cases calcEdge reg e <;> rfl

theorem foldl_min_le_init (l : List ℚ) : ∀ i : ℚ, l.foldl min i ≤ i := by
  induction l with
  | nil => intro i; simp
  | cons a rest ih =>
      intro i
      calc (a :: rest).foldl min i = rest.foldl min (min i a) := by simp
        _ ≤ min i a := ih (min i a)
        _ ≤ i := min_le_left _ _

theorem foldl_min_le_mem (l : List ℚ) (x : ℚ) (hx : x ∈ l) :
    ∀ i : ℚ, l.foldl min i ≤ x := by
  induction l with
  | nil => cases hx
  | cons a rest ih =>
      intro i
      rcases List.mem_cons.mp hx with rfl | hmem
      · calc (x :: rest).foldl min i = rest.foldl min (min i x) := by simp
          _ ≤ min i x := foldl_min_le_init rest (min i x)
          _ ≤ x := min_le_right _ _
      · calc (a :: rest).foldl min i = rest.foldl min (min i a) := by simp
          _ ≤ x := ih hmem (min i a)

theorem le_foldl_max_init (l : List ℚ) : ∀ i : ℚ, i ≤ l.foldl max i := by
  induction l with
  | nil => intro i; simp
  | cons a rest ih =>
      intro i
      calc i ≤ max i a := le_max_left _ _
        _ ≤ rest.foldl max (max i a) := ih (max i a)
        _ = (a :: rest).foldl max i := by simp

theorem le_foldl_max_mem (l : List ℚ) (x : ℚ) (hx : x ∈ l) :
    ∀ i : ℚ, x ≤ l.foldl max i := by
  induction l with
  | nil => cases hx
  | cons a rest ih =>
      intro i
      rcases List.mem_cons.mp hx with rfl | hmem
      · calc x ≤ max i x := le_max_right _ _
          _ ≤ rest.foldl max (max i x) := le_foldl_max_init rest (max i x)
          _ = (x :: rest).foldl max i := by simp
      · calc x ≤ rest.foldl max (max i a) := ih hmem (max i a)
          _ = (a :: rest).foldl max i := by simp

theorem mem_intermediatesOf (reg : List (String × NodeData)) (efrom eto : String)
    (f t n : NodeData) (nid : String)
    (hdom : |dxOf f t| > |dyOf f t|)
    (hn : (nid, n) ∈ reg) (hnf : nid ≠ efrom) (hnt : nid ≠ eto)
    (hb1 : min (centerOf f).x (centerOf t).x < (centerOf n).x)
    (hb2 : (centerOf n).x < max (centerOf f).x (centerOf t).x) :
    n ∈ intermediatesOf reg efrom eto f t := by
  unfold intermediatesOf
  rw [if_pos hdom]
  refine List.mem_filterMap.mpr ⟨(nid, n), hn, ?_⟩
  simp only
  rw [if_neg (by simp [hnf, hnt]), if_pos ⟨hb1, hb2⟩]

theorem routeEdge_bypass_pos (reg : List (String × NodeData)) (efrom eto : String)
    (f t : NodeData)
    (hne : (intermediatesOf reg efrom eto f t).length > 0)
    (hdx : dxOf f t > 0) :
    routeEdge reg efrom eto f t =
      ⟨[⟨(centerOf f).x, f.y⟩,
        ⟨(centerOf f).x, topmostOf f t (intermediatesOf reg efrom eto f t) - 30⟩,
        ⟨(centerOf t).x, topmostOf f t (intermediatesOf reg efrom eto f t) - 30⟩,
        ⟨(centerOf t).x, t.y⟩],
       ⟨((chooseAnchors f t).1.x + (chooseAnchors f t).2.x) / 2,
        topmostOf f t (intermediatesOf reg efrom eto f t) - 30 - 8⟩⟩ := by
  simp only [routeEdge]
  rw [if_pos hne, if_pos hdx]

theorem routeEdge_bypass_neg (reg : List (String × NodeData)) (efrom eto : String)
    (f t : NodeData)
    (hne : (intermediatesOf reg efrom eto f t).length > 0)
    (hdx : ¬ dxOf f t > 0) :
    routeEdge reg efrom eto f t =
      ⟨[⟨(centerOf f).x, f.y + f.h⟩,
        ⟨(centerOf f).x, bottommostOf f t (intermediatesOf reg efrom eto f t) + 30⟩,
        ⟨(centerOf t).x, bottommostOf f t (intermediatesOf reg efrom eto f t) + 30⟩,
        ⟨(centerOf t).x, t.y + t.h⟩],
       ⟨((chooseAnchors f t).1.x + (chooseAnchors f t).2.x) / 2,
        bottommostOf f t (intermediatesOf reg efrom eto f t) + 30 - 8⟩⟩ := by
  simp only [routeEdge]
  rw [if_pos hne, if_neg hdx]

theorem routeEdge_direct_h (reg : List (String × NodeData)) (efrom eto : String)
    (f t : NodeData)
    (hni : ¬ (intermediatesOf reg efrom eto f t).length > 0)
    (hdom : |dxOf f t| > |dyOf f t|) :
    routeEdge reg efrom eto f t =
      ⟨[(chooseAnchors f t).1,
        ⟨((chooseAnchors f t).1.x + (chooseAnchors f t).2.x) / 2, (chooseAnchors f t).1.y⟩,
        ⟨((chooseAnchors f t).1.x + (chooseAnchors f t).2.x) / 2, (chooseAnchors f t).2.y⟩,
        (chooseAnchors f t).2],
       ⟨((chooseAnchors f t).1.x + (chooseAnchors f t).2.x) / 2,
        ((chooseAnchors f t).1.y + (chooseAnchors f t).2.y) / 2 - 8⟩⟩ := by
  simp only [routeEdge]
  rw [if_neg hni, if_pos hdom]

theorem routeEdge_direct_v (reg : List (String × NodeData)) (efrom eto : String)
    (f t : NodeData)
    (hni : ¬ (intermediatesOf reg efrom eto f t).length > 0)
    (hdom : ¬ |dxOf f t| > |dyOf f t|) :
    routeEdge reg efrom eto f t =
      ⟨[(chooseAnchors f t).1,
        ⟨(chooseAnchors f t).1.x, ((chooseAnchors f t).1.y + (chooseAnchors f t).2.y) / 2⟩,
        ⟨(chooseAnchors f t).2.x, ((chooseAnchors f t).1.y + (chooseAnchors f t).2.y) / 2⟩,
        (chooseAnchors f t).2],
       ⟨((chooseAnchors f t).1.x + (chooseAnchors f t).2.x) / 2,
        ((chooseAnchors f t).1.y + (chooseAnchors f t).2.y) / 2 - 8⟩⟩ := by
  simp only [routeEdge]
  rw [if_neg hni, if_neg hdom]

theorem calcEdge_some (reg : List (String × NodeData)) (e : Edge) (f t : NodeData)
    (hvis : e.visible ≠ some false)
    (hf : reg.lookup e.from_ = some f) (ht : reg.lookup e.to_ = some t) :
    calcEdge reg e = some (routeEdge reg e.from_ e.to_ f t) := by
  unfold calcEdge
  rw [if_neg hvis, hf, ht]

/-- C4: anchor selection is decided purely by the sign structure of the
center-to-center delta (dx, dy): when `|dx| > |dy|` the source anchor is
the midpoint of A's east edge if `dx > 0` (else its west edge) and the
target anchor the midpoint of B's west edge (else its east edge), each
at its box's vertical center; otherwise the anchors are the south/north
edge midpoints of A and north/south edge midpoints of B, each at its
box's horizontal center. -/
theorem anchor_selection_rule (f t : NodeData) :
    (|dxOf f t| > |dyOf f t| →
      (0 < dxOf f t →
        chooseAnchors f t =
          (⟨f.x + f.w, f.y + f.h / 2⟩, ⟨t.x, t.y + t.h / 2⟩)) ∧
      (dxOf f t ≤ 0 →
        chooseAnchors f t =
          (⟨f.x, f.y + f.h / 2⟩, ⟨t.x + t.w, t.y + t.h / 2⟩))) ∧
    (¬ |dxOf f t| > |dyOf f t| →
      (0 < dyOf f t →
        chooseAnchors f t =
          (⟨f.x + f.w / 2, f.y + f.h⟩, ⟨t.x + t.w / 2, t.y⟩)) ∧
      (dyOf f t ≤ 0 →
        chooseAnchors f t =
          (⟨f.x + f.w / 2, f.y⟩, ⟨t.x + t.w / 2, t.y + t.h⟩))) := by
  constructor
  · intro hdom
    constructor
    · intro hdx
      simp only [chooseAnchors, centerOf]
      rw [if_pos hdom]
      simp only [if_pos hdx]
      simp only [Prod.mk.injEq, Pt.mk.injEq]
      refine ⟨⟨by ring_nf, by ring_nf⟩, by ring_nf, by ring_nf⟩
    · intro hdx
      simp only [chooseAnchors, centerOf]
      rw [if_pos hdom]
      simp only [if_neg (not_lt.mpr hdx)]
      simp only [Prod.mk.injEq, Pt.mk.injEq]
      refine ⟨⟨by ring_nf, by ring_nf⟩, by ring_nf, by ring_nf⟩
  · intro hdom
    constructor
    · intro hdy
      simp only [chooseAnchors, centerOf]
      rw [if_neg hdom]
      simp only [if_pos hdy]
      simp only [Prod.mk.injEq, Pt.mk.injEq]
      refine ⟨⟨by ring_nf, by ring_nf⟩, by ring_nf, by ring_nf⟩
    · intro hdy
      simp only [chooseAnchors, centerOf]
      rw [if_neg hdom]
      simp only [if_neg (not_lt.mpr hdy)]
      simp only [Prod.mk.injEq, Pt.mk.injEq]
      refine ⟨⟨by ring_nf, by ring_nf⟩, by ring_nf, by ring_nf⟩

/-- Witness for C4: for boxes A at (0,0) 100x120 and B at (300,0)
100x120 the delta is horizontal-dominant rightward, so the anchors are
A's east edge midpoint (100, 60) and B's west edge midpoint (300, 60). -/
theorem anchor_selection_rule_witness :
    chooseAnchors ⟨0, 0, 100, 120⟩ ⟨300, 0, 100, 120⟩ =
      (⟨100, 60⟩, ⟨300, 60⟩) := by
  have h :=
    ((anchor_selection_rule ⟨0, 0, 100, 120⟩ ⟨300, 0, 100, 120⟩).1
      (by norm_num [dxOf, dyOf, centerOf])).1
      (by norm_num [dxOf, centerOf])
  rw [h]
  norm_num

theorem intermediatesOf_nil (reg : List (String × NodeData)) (efrom eto : String)
    (f t : NodeData)
    (hno : ∀ (nid : String) (n : NodeData), (nid, n) ∈ reg →
      nid ≠ efrom → nid ≠ eto → ¬ betweenDominant f t n) :
    intermediatesOf reg efrom eto f t = [] := by
  simp only [intermediatesOf]
  by_cases hdom : |dxOf f t| > |dyOf f t|
  · rw [if_pos hdom]
    refine List.filterMap_eq_nil_iff.mpr ?_
    rintro ⟨nid, n⟩ hp
    dsimp only
    by_cases hid : nid = efrom ∨ nid = eto
    · rw [if_pos hid]
    · rw [if_neg hid]
      push_neg at hid
      have hb := hno nid n hp hid.1 hid.2
      unfold betweenDominant at hb
      rw [if_pos hdom] at hb
      rw [if_neg hb]
  · rw [if_neg hdom]

theorem orthogonal_four (a b c d : Pt)
    (h1 : a.x = b.x ∨ a.y = b.y) (h2 : b.x = c.x ∨ b.y = c.y)
    (h3 : c.x = d.x ∨ c.y = d.y) :
    orthogonalPolyline [a, b, c, d] := by
  intro pq hpq
  simp only [segsOf, List.tail_cons, List.zip_cons_cons, List.zip_nil_right,
    List.mem_cons, List.not_mem_nil, or_false] at hpq
  rcases hpq with rfl | rfl | rfl
  · exact h1
  · exact h2
  · exact h3

theorem bends_four_le (a b c d : Pt) : bends [a, b, c, d] ≤ 2 := by
  simp only [bends]
  split_ifs <;> norm_num

/-- C3 (amended): for an edge with both endpoint boxes measured and no
third registered node's center strictly between them on the dominant
axis, the produced path is the orthogonal elbow through the midpoint: a
4-point polyline with at most two bends (not at most one, as the claim
stated) whose first point is exactly the source anchor and whose last
point is exactly the target anchor; it degenerates to a straight
segment when the anchors share the cross-axis coordinate. -/
theorem direct_route_elbow
    (reg : List (String × NodeData)) (e : Edge) (f t : NodeData)
    (hvis : e.visible ≠ some false)
    (hf : reg.lookup e.from_ = some f) (ht : reg.lookup e.to_ = some t)
    (hno : ∀ (nid : String) (n : NodeData), (nid, n) ∈ reg →
      nid ≠ e.from_ → nid ≠ e.to_ → ¬ betweenDominant f t n) :
    calcEdge reg e = some (routeEdge reg e.from_ e.to_ f t) ∧
    (routeEdge reg e.from_ e.to_ f t).points =
      (if |dxOf f t| > |dyOf f t| then
        [(chooseAnchors f t).1,
         ⟨((chooseAnchors f t).1.x + (chooseAnchors f t).2.x) / 2,
          (chooseAnchors f t).1.y⟩,
         ⟨((chooseAnchors f t).1.x + (chooseAnchors f t).2.x) / 2,
          (chooseAnchors f t).2.y⟩,
         (chooseAnchors f t).2]
      else
        [(chooseAnchors f t).1,
         ⟨(chooseAnchors f t).1.x,
          ((chooseAnchors f t).1.y + (chooseAnchors f t).2.y) / 2⟩,
         ⟨(chooseAnchors f t).2.x,
          ((chooseAnchors f t).1.y + (chooseAnchors f t).2.y) / 2⟩,
         (chooseAnchors f t).2]) ∧
    (routeEdge reg e.from_ e.to_ f t).points.head? = some (chooseAnchors f t).1 ∧
    (routeEdge reg e.from_ e.to_ f t).points.getLast? = some (chooseAnchors f t).2 ∧
    orthogonalPolyline (routeEdge reg e.from_ e.to_ f t).points ∧
    bends (routeEdge reg e.from_ e.to_ f t).points ≤ 2 := by
  have hnil : intermediatesOf reg e.from_ e.to_ f t = [] :=
    intermediatesOf_nil reg e.from_ e.to_ f t hno
  have hni : ¬ (intermediatesOf reg e.from_ e.to_ f t).length > 0 := by
    simp [hnil]
  refine ⟨calcEdge_some reg e f t hvis hf ht, ?_⟩
  by_cases hdom : |dxOf f t| > |dyOf f t|
  · rw [routeEdge_direct_h reg e.from_ e.to_ f t hni hdom]
    rw [if_pos hdom]
    refine ⟨rfl, rfl, rfl, ?_, bends_four_le _ _ _ _⟩
    exact orthogonal_four _ _ _ _ (Or.inr rfl) (Or.inl rfl) (Or.inr rfl)
  · rw [routeEdge_direct_v reg e.from_ e.to_ f t hni hdom]
    rw [if_neg hdom]
    refine ⟨rfl, rfl, rfl, ?_, bends_four_le _ _ _ _⟩
    exact orthogonal_four _ _ _ _ (Or.inl rfl) (Or.inr rfl) (Or.inl rfl)

/-- Counterexample for C3: for boxes a at (0,0) and b at (300,100),
both 100x100, with no third node, the horizontal-dominant direct path
is the Z-shaped elbow (100,50)-(200,50)-(200,150)-(300,150), which has
two bends - so the produced path is not a single-bend (or straight)
polyline as the claim states. -/
theorem direct_route_two_bends_cex :
    calcEdge regZ edgeZ =
      some ⟨[⟨100, 50⟩, ⟨200, 50⟩, ⟨200, 150⟩, ⟨300, 150⟩], ⟨200, 92⟩⟩ ∧
    bends [⟨100, 50⟩, ⟨200, 50⟩, ⟨200, 150⟩, ⟨300, 150⟩] = 2 ∧
    ¬ bends [⟨100, 50⟩, ⟨200, 50⟩, ⟨200, 150⟩, ⟨300, 150⟩] ≤ 1 ∧
    (∀ (nid : String) (n : NodeData), (nid, n) ∈ regZ → nid = "a" ∨ nid = "b") := by
  refine ⟨?_, ?_, ?_, ?_⟩
  · simp [calcEdge, regZ, edgeZ, routeEdge, chooseAnchors, intermediatesOf,
      centerOf, dxOf, dyOf, List.lookup, lookup_cons_pair]
    norm_num
  · simp only [bends]
    norm_num
  · simp only [bends]
    norm_num
  · rintro nid n hp
    simp only [regZ, List.mem_cons, List.not_mem_nil, or_false,
      Prod.mk.injEq] at hp
    rcases hp with ⟨rfl, _⟩ | ⟨rfl, _⟩
    · exact Or.inl rfl
    · exact Or.inr rfl

/-- Witness for C3: the spec's end-to-end scenario - nodes a at x=0 and
b at x=300 on the same row, edge a→b, no obstruction - produces the
straight horizontal segment from a's east anchor (100,60) to b's west
anchor (300,60). -/
theorem direct_route_elbow_witness :
    calcEdge regAB edgeAB = some (routeEdge regAB "a" "b" ⟨0, 0, 100, 120⟩ ⟨300, 0, 100, 120⟩) ∧
    bends (routeEdge regAB "a" "b" ⟨0, 0, 100, 120⟩ ⟨300, 0, 100, 120⟩).points ≤ 2 ∧
    calcEdge regAB edgeAB =
      some ⟨[⟨100, 60⟩, ⟨200, 60⟩, ⟨200, 60⟩, ⟨300, 60⟩], ⟨200, 52⟩⟩ ∧
    (∀ p ∈ [⟨100, 60⟩, ⟨200, 60⟩, ⟨200, 60⟩, (⟨300, 60⟩ : Pt)], p.y = 60) := by
  have h := direct_route_elbow regAB edgeAB ⟨0, 0, 100, 120⟩ ⟨300, 0, 100, 120⟩
    (by simp [edgeAB])
    (by simp [regAB, edgeAB, lookup_cons_pair])
    (by simp [regAB, edgeAB, lookup_cons_pair])
    (by
      rintro nid n hp h1 h2
      simp only [regAB, List.mem_cons, List.not_mem_nil, or_false,
        Prod.mk.injEq] at hp
      rcases hp with ⟨rfl, _⟩ | ⟨rfl, _⟩
      · exact absurd rfl h1
      · exact absurd rfl h2)
  refine ⟨h.1, h.2.2.2.2.2, ?_, ?_⟩
  · simp [calcEdge, regAB, edgeAB, routeEdge, chooseAnchors, intermediatesOf,
      centerOf, dxOf, dyOf, List.lookup, lookup_cons_pair]
    norm_num
  · intro p hp
    simp only [List.mem_cons, List.not_mem_nil, or_false] at hp
    rcases hp with rfl | rfl | rfl | rfl <;> rfl

set_option maxHeartbeats 1000000 in
/-- C1 (amended): obstruction avoidance holds only for
horizontal-dominant edges, and only for obstructing nodes whose
horizontal span does not cover the source or target center column: for
such an edge and such a third registered node between the endpoint
centers, the computed path never passes through the node's interior.
(For vertical-dominant edges no avoidance is performed at all, and a
between-node whose box covers an endpoint's center column can be
crossed by the vertical entry/exit segments - see the counterexample.) -/
theorem horizontal_route_avoids_between_nodes
    (reg : List (String × NodeData)) (e : Edge) (f t : NodeData)
    (hvis : e.visible ≠ some false)
    (hf : reg.lookup e.from_ = some f) (ht : reg.lookup e.to_ = some t)
    (hdom : |dxOf f t| > |dyOf f t|)
    (nid : String) (n : NodeData)
    (hn : (nid, n) ∈ reg) (hnf : nid ≠ e.from_) (hnt : nid ≠ e.to_)
    (hb1 : min (centerOf f).x (centerOf t).x < (centerOf n).x)
    (hb2 : (centerOf n).x < max (centerOf f).x (centerOf t).x)
    (hcol1 : (centerOf f).x ≤ n.x ∨ n.x + n.w ≤ (centerOf f).x)
    (hcol2 : (centerOf t).x ≤ n.x ∨ n.x + n.w ≤ (centerOf t).x) :
    (calcEdge reg e).isSome = true ∧
    ∀ r, calcEdge reg e = some r → ¬ crossesInterior r.points n := by
  have hmem : n ∈ intermediatesOf reg e.from_ e.to_ f t :=
    mem_intermediatesOf reg e.from_ e.to_ f t n nid hdom hn hnf hnt hb1 hb2
  have hne : (intermediatesOf reg e.from_ e.to_ f t).length > 0 :=
    List.length_pos.mpr (List.ne_nil_of_mem hmem)
  have hcalc := calcEdge_some reg e f t hvis hf ht
  refine ⟨by rw [hcalc]; rfl, ?_⟩
  intro r hr
  rw [hcalc] at hr
  obtain rfl : routeEdge reg e.from_ e.to_ f t = r := Option.some.inj hr
  by_cases hdx : dxOf f t > 0
  · rw [routeEdge_bypass_pos reg e.from_ e.to_ f t hne hdx]
    have htop : topmostOf f t (intermediatesOf reg e.from_ e.to_ f t) ≤ n.y := by
      unfold topmostOf
      exact foldl_min_le_mem _ _ (List.mem_map_of_mem _ hmem) _
    rintro ⟨pt, hOn, hInt⟩
    obtain ⟨hx1, hx2, hy1, hy2⟩ := hInt
    obtain ⟨pq, hpq, hseg⟩ := hOn
    simp only [segsOf, List.tail_cons, List.zip_cons_cons, List.zip_nil_right,
      List.mem_cons, List.not_mem_nil, or_false] at hpq
    rcases hpq with rfl | rfl | rfl
    · obtain ⟨s, _, _, hpx, _⟩ := hseg
      have hptx : pt.x = (centerOf f).x := by
        simpa using hpx
      rcases hcol1 with hc | hc <;> rw [hptx] at hx1 hx2 <;> linarith
    · obtain ⟨s, _, _, _, hpy⟩ := hseg
      have hpty : pt.y = topmostOf f t (intermediatesOf reg e.from_ e.to_ f t) - 30 := by
        simpa using hpy
      rw [hpty] at hy1
      linarith
    · obtain ⟨s, _, _, hpx, _⟩ := hseg
      have hptx : pt.x = (centerOf t).x := by
        simpa using hpx
      rcases hcol2 with hc | hc <;> rw [hptx] at hx1 hx2 <;> linarith
  · rw [routeEdge_bypass_neg reg e.from_ e.to_ f t hne hdx]
    have hbot : n.y + n.h ≤ bottommostOf f t (intermediatesOf reg e.from_ e.to_ f t) := by
      unfold bottommostOf
      exact le_foldl_max_mem _ _ (List.mem_map_of_mem _ hmem) _
    rintro ⟨pt, hOn, hInt⟩
    obtain ⟨hx1, hx2, hy1, hy2⟩ := hInt
    obtain ⟨pq, hpq, hseg⟩ := hOn
    simp only [segsOf, List.tail_cons, List.zip_cons_cons, List.zip_nil_right,
      List.mem_cons, List.not_mem_nil, or_false] at hpq
    rcases hpq with rfl | rfl | rfl
    · obtain ⟨s, _, _, hpx, _⟩ := hseg
      have hptx : pt.x = (centerOf f).x := by
        simpa using hpx
      rcases hcol1 with hc | hc <;> rw [hptx] at hx1 hx2 <;> linarith
    · obtain ⟨s, _, _, _, hpy⟩ := hseg
      have hpty : pt.y = bottommostOf f t (intermediatesOf reg e.from_ e.to_ f t) + 30 := by
        simpa using hpy
      rw [hpty] at hy2
      linarith
    · obtain ⟨s, _, _, hpx, _⟩ := hseg
      have hptx : pt.x = (centerOf t).x := by
        simpa using hpx
      rcases hcol2 with hc | hc <;> rw [hptx] at hx1 hx2 <;> linarith

/-- Counterexample for C1: two concrete violations of the claim as
stated.  First, for the vertical column a(0,0) b(0,300) c(0,600) (all
100x100) the edge a→c is vertical-dominant, b's center lies strictly
between the endpoint centers on the dominant (vertical) axis, yet the
computed path is the straight segment x=50 from y=100 to y=600, which
passes through b's interior (no vertical obstruction avoidance
exists).  Second, even for a horizontal-dominant edge a→c with the wide
node b (0,0,200x400) whose center is strictly between, the bypass
path's vertical exit segment at x=50 passes through b's interior. -/
theorem route_through_between_node_cex :
    calcEdge regV edgeV =
      some ⟨[⟨50, 100⟩, ⟨50, 350⟩, ⟨50, 350⟩, ⟨50, 600⟩], ⟨50, 342⟩⟩ ∧
    ¬ |dxOf ⟨0, 0, 100, 100⟩ ⟨0, 600, 100, 100⟩| >
        |dyOf ⟨0, 0, 100, 100⟩ ⟨0, 600, 100, 100⟩| ∧
    betweenDominant ⟨0, 0, 100, 100⟩ ⟨0, 600, 100, 100⟩ ⟨0, 300, 100, 100⟩ ∧
    crossesInterior [⟨50, 100⟩, ⟨50, 350⟩, ⟨50, 350⟩, ⟨50, 600⟩]
      ⟨0, 300, 100, 100⟩ ∧
    calcEdge regW edgeW =
      some ⟨[⟨50, 300⟩, ⟨50, -30⟩, ⟨350, -30⟩, ⟨350, 300⟩], ⟨200, -38⟩⟩ ∧
    |dxOf ⟨0, 300, 100, 100⟩ ⟨300, 300, 100, 100⟩| >
        |dyOf ⟨0, 300, 100, 100⟩ ⟨300, 300, 100, 100⟩| ∧
    betweenDominant ⟨0, 300, 100, 100⟩ ⟨300, 300, 100, 100⟩ ⟨0, 0, 200, 400⟩ ∧
    crossesInterior [⟨50, 300⟩, ⟨50, -30⟩, ⟨350, -30⟩, ⟨350, 300⟩]
      ⟨0, 0, 200, 400⟩ := by
  refine ⟨?_, ?_, ?_, ?_, ?_, ?_, ?_, ?_⟩
  · simp [calcEdge, regV, edgeV, routeEdge, chooseAnchors, intermediatesOf,
      centerOf, dxOf, dyOf, List.lookup, lookup_cons_pair]
    norm_num
  · norm_num [dxOf, dyOf, centerOf]
  · unfold betweenDominant
    rw [if_neg (by norm_num [dxOf, dyOf, centerOf])]
    norm_num [centerOf]
  · refine ⟨⟨50, 350⟩, ⟨(⟨50, 100⟩, ⟨50, 350⟩), ?_, ?_⟩, ?_⟩
    · simp [segsOf]
    · exact ⟨1, by norm_num, by norm_num, by norm_num, by norm_num⟩
    · refine ⟨by norm_num, by norm_num, by norm_num, by norm_num⟩
  · simp [calcEdge, regW, edgeW, routeEdge, chooseAnchors, intermediatesOf,
      topmostOf, centerOf, dxOf, dyOf, List.lookup, lookup_cons_pair]
    norm_num [List.filterMap_cons, List.foldl_cons, List.map_cons]
    simp [min_def]
    norm_num
  · norm_num [dxOf, dyOf, centerOf]
  · unfold betweenDominant
    rw [if_pos (by norm_num [dxOf, dyOf, centerOf])]
    norm_num [centerOf]
  · refine ⟨⟨50, 150⟩, ⟨(⟨50, 300⟩, ⟨50, -30⟩), ?_, ?_⟩, ?_⟩
    · simp [segsOf]
    · exact ⟨5/11, by norm_num, by norm_num, by norm_num, by norm_num⟩
    · refine ⟨by norm_num, by norm_num, by norm_num, by norm_num⟩

/-- Witness for C1 (amended): in the three-in-a-row scenario a(0)
b(300) c(600), the edge a→c is horizontal-dominant, b is strictly
between, b's span [300,400] excludes both center columns 50 and 650,
and the computed bypass path avoids b's interior. -/
theorem horizontal_route_avoids_between_nodes_witness :
    (calcEdge regB3 edgeB3).isSome = true ∧
    ¬ crossesInterior [⟨50, 100⟩, ⟨50, 70⟩, ⟨650, 70⟩, ⟨650, 100⟩]
        ⟨300, 100, 100, 100⟩ := by
  have h := horizontal_route_avoids_between_nodes regB3 edgeB3
    ⟨0, 100, 100, 100⟩ ⟨600, 100, 100, 100⟩
    (by simp [edgeB3])
    (by simp [regB3, edgeB3, lookup_cons_pair])
    (by simp [regB3, edgeB3, lookup_cons_pair])
    (by norm_num [dxOf, dyOf, centerOf])
    "b" ⟨300, 100, 100, 100⟩
    (by simp [regB3])
    (by simp [edgeB3])
    (by simp [edgeB3])
    (by norm_num [centerOf])
    (by norm_num [centerOf])
    (by norm_num [centerOf])
    (by norm_num [centerOf])
  refine ⟨h.1, ?_⟩
  have hcalc : calcEdge regB3 edgeB3 =
      some ⟨[⟨50, 100⟩, ⟨50, 70⟩, ⟨650, 70⟩, ⟨650, 100⟩], ⟨350, 62⟩⟩ := by
    simp [calcEdge, regB3, edgeB3, routeEdge, chooseAnchors, intermediatesOf,
      topmostOf, centerOf, dxOf, dyOf, List.lookup, lookup_cons_pair]
    norm_num [List.filterMap_cons, List.foldl_cons, List.map_cons]
    simp [min_def]
    norm_num
  exact h.2 _ hcalc

set_option maxHeartbeats 1000000 in
/-- C2 (amended): for a horizontal-dominant edge with at least one
obstructing intermediate node, the produced path is a 4-point
(3-segment, not 4-segment) orthogonal polyline along the bypass line
`topmost involved top - 30` when dx > 0 and `bottommost involved bottom
+ 30` when dx < 0; the bypass line lies strictly outside every
obstructing node's vertical extent; and the path avoids every
obstructing node's closed bounding box provided that node's horizontal
span strictly excludes the source and target center columns (without
that proviso the vertical exit/entry segments can cross a wide
obstructing node - see the counterexample). -/
theorem bypass_routing_shape
    (reg : List (String × NodeData)) (e : Edge) (f t : NodeData)
    (hvis : e.visible ≠ some false)
    (hf : reg.lookup e.from_ = some f) (ht : reg.lookup e.to_ = some t)
    (hdom : |dxOf f t| > |dyOf f t|)
    (nid0 : String) (n0 : NodeData)
    (hn0 : (nid0, n0) ∈ reg) (hnf0 : nid0 ≠ e.from_) (hnt0 : nid0 ≠ e.to_)
    (hb10 : min (centerOf f).x (centerOf t).x < (centerOf n0).x)
    (hb20 : (centerOf n0).x < max (centerOf f).x (centerOf t).x) :
    calcEdge reg e = some (routeEdge reg e.from_ e.to_ f t) ∧
    (0 < dxOf f t →
      (routeEdge reg e.from_ e.to_ f t).points =
        [⟨(centerOf f).x, f.y⟩,
         ⟨(centerOf f).x, topmostOf f t (intermediatesOf reg e.from_ e.to_ f t) - 30⟩,
         ⟨(centerOf t).x, topmostOf f t (intermediatesOf reg e.from_ e.to_ f t) - 30⟩,
         ⟨(centerOf t).x, t.y⟩]) ∧
    (dxOf f t < 0 →
      (routeEdge reg e.from_ e.to_ f t).points =
        [⟨(centerOf f).x, f.y + f.h⟩,
         ⟨(centerOf f).x, bottommostOf f t (intermediatesOf reg e.from_ e.to_ f t) + 30⟩,
         ⟨(centerOf t).x, bottommostOf f t (intermediatesOf reg e.from_ e.to_ f t) + 30⟩,
         ⟨(centerOf t).x, t.y + t.h⟩]) ∧
    (routeEdge reg e.from_ e.to_ f t).points.length = 4 ∧
    (segsOf (routeEdge reg e.from_ e.to_ f t).points).length = 3 ∧
    orthogonalPolyline (routeEdge reg e.from_ e.to_ f t).points ∧
    (∀ (nid : String) (n : NodeData), (nid, n) ∈ reg →
      nid ≠ e.from_ → nid ≠ e.to_ →
      min (centerOf f).x (centerOf t).x < (centerOf n).x →
      (centerOf n).x < max (centerOf f).x (centerOf t).x →
      (0 < dxOf f t →
        topmostOf f t (intermediatesOf reg e.from_ e.to_ f t) - 30 < n.y) ∧
      (dxOf f t < 0 →
        n.y + n.h < bottommostOf f t (intermediatesOf reg e.from_ e.to_ f t) + 30)) ∧
    (∀ (nid : String) (n : NodeData), (nid, n) ∈ reg →
      nid ≠ e.from_ → nid ≠ e.to_ →
      min (centerOf f).x (centerOf t).x < (centerOf n).x →
      (centerOf n).x < max (centerOf f).x (centerOf t).x →
      ((centerOf f).x < n.x ∨ n.x + n.w < (centerOf f).x) →
      ((centerOf t).x < n.x ∨ n.x + n.w < (centerOf t).x) →
      ¬ meetsBox (routeEdge reg e.from_ e.to_ f t).points n) := by
  have hmem0 : n0 ∈ intermediatesOf reg e.from_ e.to_ f t :=
    mem_intermediatesOf reg e.from_ e.to_ f t n0 nid0 hdom hn0 hnf0 hnt0 hb10 hb20
  have hne : (intermediatesOf reg e.from_ e.to_ f t).length > 0 :=
    List.length_pos.mpr (List.ne_nil_of_mem hmem0)
  refine ⟨calcEdge_some reg e f t hvis hf ht, ?_, ?_, ?_, ?_, ?_, ?_, ?_⟩
  · intro hdx
    rw [routeEdge_bypass_pos reg e.from_ e.to_ f t hne hdx]
  · intro hdx
    rw [routeEdge_bypass_neg reg e.from_ e.to_ f t hne (by intro hc; linarith)]
  · by_cases hdx : dxOf f t > 0
    · rw [routeEdge_bypass_pos reg e.from_ e.to_ f t hne hdx]
      rfl
    · rw [routeEdge_bypass_neg reg e.from_ e.to_ f t hne hdx]
      rfl
  · by_cases hdx : dxOf f t > 0
    · rw [routeEdge_bypass_pos reg e.from_ e.to_ f t hne hdx]
      rfl
    · rw [routeEdge_bypass_neg reg e.from_ e.to_ f t hne hdx]
      rfl
  · by_cases hdx : dxOf f t > 0
    · rw [routeEdge_bypass_pos reg e.from_ e.to_ f t hne hdx]
      exact orthogonal_four _ _ _ _ (Or.inl rfl) (Or.inr rfl) (Or.inl rfl)
    · rw [routeEdge_bypass_neg reg e.from_ e.to_ f t hne hdx]
      exact orthogonal_four _ _ _ _ (Or.inl rfl) (Or.inr rfl) (Or.inl rfl)
  · intro nid n hn hnf hnt hb1 hb2
    have hmemn : n ∈ intermediatesOf reg e.from_ e.to_ f t :=
      mem_intermediatesOf reg e.from_ e.to_ f t n nid hdom hn hnf hnt hb1 hb2
    have htop : topmostOf f t (intermediatesOf reg e.from_ e.to_ f t) ≤ n.y := by
      unfold topmostOf
      exact foldl_min_le_mem _ _ (List.mem_map_of_mem _ hmemn) _
    have hbot : n.y + n.h ≤ bottommostOf f t (intermediatesOf reg e.from_ e.to_ f t) := by
      unfold bottommostOf
      exact le_foldl_max_mem _ _ (List.mem_map_of_mem _ hmemn) _
    exact ⟨fun _ => by linarith, fun _ => by linarith⟩
  · intro nid n hn hnf hnt hb1 hb2 hc1 hc2
    have hmemn : n ∈ intermediatesOf reg e.from_ e.to_ f t :=
      mem_intermediatesOf reg e.from_ e.to_ f t n nid hdom hn hnf hnt hb1 hb2
    have htop : topmostOf f t (intermediatesOf reg e.from_ e.to_ f t) ≤ n.y := by
      unfold topmostOf
      exact foldl_min_le_mem _ _ (List.mem_map_of_mem _ hmemn) _
    have hbot : n.y + n.h ≤ bottommostOf f t (intermediatesOf reg e.from_ e.to_ f t) := by
      unfold bottommostOf
      exact le_foldl_max_mem _ _ (List.mem_map_of_mem _ hmemn) _
    by_cases hdx : dxOf f t > 0
    · rw [routeEdge_bypass_pos reg e.from_ e.to_ f t hne hdx]
      rintro ⟨pt, hOn, hB⟩
      obtain ⟨hx1, hx2, hy1, hy2⟩ := hB
      obtain ⟨pq, hpq, hseg⟩ := hOn
      simp only [segsOf, List.tail_cons, List.zip_cons_cons, List.zip_nil_right,
        List.mem_cons, List.not_mem_nil, or_false] at hpq
      rcases hpq with rfl | rfl | rfl
      · obtain ⟨s, _, _, hpx, _⟩ := hseg
        have hptx : pt.x = (centerOf f).x := by simpa using hpx
        rcases hc1 with hc | hc <;> rw [hptx] at hx1 hx2 <;> linarith
      · obtain ⟨s, _, _, _, hpy⟩ := hseg
        have hpty : pt.y =
            topmostOf f t (intermediatesOf reg e.from_ e.to_ f t) - 30 := by
          simpa using hpy
        rw [hpty] at hy1
        linarith
      · obtain ⟨s, _, _, hpx, _⟩ := hseg
        have hptx : pt.x = (centerOf t).x := by simpa using hpx
        rcases hc2 with hc | hc <;> rw [hptx] at hx1 hx2 <;> linarith
    · rw [routeEdge_bypass_neg reg e.from_ e.to_ f t hne hdx]
      rintro ⟨pt, hOn, hB⟩
      obtain ⟨hx1, hx2, hy1, hy2⟩ := hB
      obtain ⟨pq, hpq, hseg⟩ := hOn
      simp only [segsOf, List.tail_cons, List.zip_cons_cons, List.zip_nil_right,
        List.mem_cons, List.not_mem_nil, or_false] at hpq
      rcases hpq with rfl | rfl | rfl
      · obtain ⟨s, _, _, hpx, _⟩ := hseg
        have hptx : pt.x = (centerOf f).x := by simpa using hpx
        rcases hc1 with hc | hc <;> rw [hptx] at hx1 hx2 <;> linarith
      · obtain ⟨s, _, _, _, hpy⟩ := hseg
        have hpty : pt.y =
            bottommostOf f t (intermediatesOf reg e.from_ e.to_ f t) + 30 := by
          simpa using hpy
        rw [hpty] at hy2
        linarith
      · obtain ⟨s, _, _, hpx, _⟩ := hseg
        have hptx : pt.x = (centerOf t).x := by simpa using hpx
        rcases hc2 with hc | hc <;> rw [hptx] at hx1 hx2 <;> linarith

/-- Counterexample for C2: for a(0,300) and c(300,300) (100x100) with
the wide obstructing node b(0,0,220x260) whose center (110,130) lies
strictly between the endpoint centers, the bypass path's vertical exit
segment at x=50 passes through b's closed box (the point (50,130) is on
the path and inside the box), so the produced path intersects an
obstructing node's bounding box; moreover the polyline has 3 segments,
not 4. -/
theorem bypass_routing_cex :
    calcEdge regW2 edgeW2 =
      some ⟨[⟨50, 300⟩, ⟨50, -30⟩, ⟨350, -30⟩, ⟨350, 300⟩], ⟨200, -38⟩⟩ ∧
    |dxOf ⟨0, 300, 100, 100⟩ ⟨300, 300, 100, 100⟩| >
        |dyOf ⟨0, 300, 100, 100⟩ ⟨300, 300, 100, 100⟩| ∧
    min (centerOf ⟨0, 300, 100, 100⟩).x (centerOf ⟨300, 300, 100, 100⟩).x <
        (centerOf ⟨0, 0, 220, 260⟩).x ∧
    (centerOf ⟨0, 0, 220, 260⟩).x <
        max (centerOf ⟨0, 300, 100, 100⟩).x (centerOf ⟨300, 300, 100, 100⟩).x ∧
    meetsBox [⟨50, 300⟩, ⟨50, -30⟩, ⟨350, -30⟩, ⟨350, 300⟩] ⟨0, 0, 220, 260⟩ ∧
    (segsOf [⟨50, 300⟩, ⟨50, -30⟩, ⟨350, -30⟩, (⟨350, 300⟩ : Pt)]).length = 3 := by
  refine ⟨?_, ?_, ?_, ?_, ?_, ?_⟩
  · simp [calcEdge, regW2, edgeW2, routeEdge, chooseAnchors, intermediatesOf,
      topmostOf, centerOf, dxOf, dyOf, List.lookup, lookup_cons_pair]
    norm_num [List.filterMap_cons, List.foldl_cons, List.map_cons]
    simp [min_def]
    norm_num
  · norm_num [dxOf, dyOf, centerOf]
  · norm_num [centerOf]
  · norm_num [centerOf]
  · refine ⟨⟨50, 130⟩, ⟨(⟨50, 300⟩, ⟨50, -30⟩), ?_, ?_⟩, ?_⟩
    · simp [segsOf]
    · exact ⟨17/33, by norm_num, by norm_num, by norm_num, by norm_num⟩
    · refine ⟨by norm_num, by norm_num, by norm_num, by norm_num⟩
  · rfl

/-- Witness for C2 (amended): the spec's three-in-a-row scenario a(0)
b(300) c(600) on one row, edge a→c: the path is the 4-point bypass
polyline along y=70 = (topmost 100) - 30, the bypass line is strictly
above b's top, and the path avoids b's box entirely. -/
theorem bypass_routing_shape_witness :
    calcEdge regB3 edgeB3 =
      some ⟨[⟨50, 100⟩, ⟨50, 70⟩, ⟨650, 70⟩, ⟨650, 100⟩], ⟨350, 62⟩⟩ ∧
    topmostOf ⟨0, 100, 100, 100⟩ ⟨600, 100, 100, 100⟩
        (intermediatesOf regB3 "a" "c" ⟨0, 100, 100, 100⟩ ⟨600, 100, 100, 100⟩) - 30 <
      100 ∧
    ¬ meetsBox [⟨50, 100⟩, ⟨50, 70⟩, ⟨650, 70⟩, ⟨650, 100⟩] ⟨300, 100, 100, 100⟩ := by
  have h := bypass_routing_shape regB3 edgeB3
    ⟨0, 100, 100, 100⟩ ⟨600, 100, 100, 100⟩
    (by simp [edgeB3])
    (by simp [regB3, edgeB3, lookup_cons_pair])
    (by simp [regB3, edgeB3, lookup_cons_pair])
    (by norm_num [dxOf, dyOf, centerOf])
    "b" ⟨300, 100, 100, 100⟩
    (by simp [regB3])
    (by simp [edgeB3])
    (by simp [edgeB3])
    (by norm_num [centerOf])
    (by norm_num [centerOf])
  have hcalc : calcEdge regB3 edgeB3 =
      some ⟨[⟨50, 100⟩, ⟨50, 70⟩, ⟨650, 70⟩, ⟨650, 100⟩], ⟨350, 62⟩⟩ := by
    simp [calcEdge, regB3, edgeB3, routeEdge, chooseAnchors, intermediatesOf,
      topmostOf, centerOf, dxOf, dyOf, List.lookup, lookup_cons_pair]
    norm_num [List.filterMap_cons, List.foldl_cons, List.map_cons]
    simp [min_def]
    norm_num
  have hroute : routeEdge regB3 edgeB3.from_ edgeB3.to_
        ⟨0, 100, 100, 100⟩ ⟨600, 100, 100, 100⟩ =
      ⟨[⟨50, 100⟩, ⟨50, 70⟩, ⟨650, 70⟩, ⟨650, 100⟩], ⟨350, 62⟩⟩ :=
    Option.some.inj ((h.1).symm.trans hcalc)
  refine ⟨hcalc, ?_, ?_⟩
  · have hvert := (h.2.2.2.2.2.2.1 "b" ⟨300, 100, 100, 100⟩
      (by simp [regB3]) (by simp [edgeB3]) (by simp [edgeB3])
      (by norm_num [centerOf]) (by norm_num [centerOf])).1
      (by norm_num [dxOf, centerOf])
    exact hvert
  · have hav := h.2.2.2.2.2.2.2 "b" ⟨300, 100, 100, 100⟩
      (by simp [regB3]) (by simp [edgeB3]) (by simp [edgeB3])
      (by norm_num [centerOf]) (by norm_num [centerOf])
      (by norm_num [centerOf]) (by norm_num [centerOf])
    rw [hroute] at hav
    simpa using hav

theorem string_append_left_cancel {a b c : String} (h : a ++ b = a ++ c) : b = c := by
  have hd := congrArg String.data h
  simp only [String.data_append] at hd
  exact String.ext (List.append_cancel_left hd)

/-- C5: an edge declared with `visible: false` gets no entry in the
computed paths map, no arrowhead marker, and no drawable path element. -/
theorem invisible_edge_not_rendered
    (reg : List (String × NodeData)) (edges : List Edge) (e : Edge)
    (he : e ∈ edges) (hnd : (edges.map (fun x => x.id)).Nodup)
    (hvis : e.visible = some false) :
    (calculatePaths reg edges).lookup e.id = none ∧
    ("arrowhead-" ++ e.id) ∉ renderedMarkerIds edges ∧
    e.id ∉ renderedPathIds reg edges := by
  have hcalc : calcEdge reg e = none := by
    simp [calcEdge, hvis]
  have hlook := lookup_calculatePaths reg edges e he hnd
  rw [hcalc] at hlook
  refine ⟨hlook, ?_, ?_⟩
  · intro hmem
    unfold renderedMarkerIds visibleEdgesOf at hmem
    obtain ⟨e', he', heq⟩ := List.mem_map.mp hmem
    have he'mem : e' ∈ edges := (List.mem_filter.mp he').1
    have he'vis : e'.visible ≠ some false := by
      have hp := (List.mem_filter.mp he').2
      simpa using hp
    have hid : e'.id = e.id := string_append_left_cancel heq
    have hee : e' = e := List.inj_on_of_nodup_map hnd he'mem he hid
    rw [hee] at he'vis
    exact he'vis hvis
  · intro hmem
    unfold renderedPathIds visibleEdgesOf at hmem
    obtain ⟨e', he', heq⟩ := List.mem_filterMap.mp hmem
    cases hl : (calculatePaths reg edges).lookup e'.id with
    | none =>
        rw [hl] at heq
        exact Option.noConfusion heq
    | some r =>
        rw [hl] at heq
        have hid : e'.id = e.id := Option.some.inj heq
        rw [hid, hlook] at hl
        exact Option.noConfusion hl

/-- Witness for C5: with the hidden edge `hid` and the visible edge
`shn` over measured nodes a and b, the paths map has no entry for
`hid`, no `arrowhead-hid` marker is emitted, and no path element with
id `hid` is rendered. -/
theorem invisible_edge_not_rendered_witness :
    (calculatePaths regAB [edgeHidden, edgeShown]).lookup "hid" = none ∧
    ("arrowhead-hid" : String) ∉ renderedMarkerIds [edgeHidden, edgeShown] ∧
    ("hid" : String) ∉ renderedPathIds regAB [edgeHidden, edgeShown] := by
  have h := invisible_edge_not_rendered regAB [edgeHidden, edgeShown] edgeHidden
    (by simp)
    (by simp [edgeHidden, edgeShown])
    (by simp [edgeHidden])
  exact h

/-- C6: an edge with a missing endpoint box is skipped without error
(total function, no entry produced); with a registry containing both
boxes the same edge's entry is produced again; and every other edge's
entry is exactly its own route computation, unaffected by the skip. -/
theorem edge_skipped_when_box_missing
    (reg regFull : List (String × NodeData)) (edges : List Edge) (e : Edge)
    (he : e ∈ edges) (hnd : (edges.map (fun x => x.id)).Nodup)
    (hvis : e.visible ≠ some false)
    (hmiss : reg.lookup e.from_ = none ∨ reg.lookup e.to_ = none)
    (f t : NodeData)
    (hf : regFull.lookup e.from_ = some f) (ht : regFull.lookup e.to_ = some t) :
    (calculatePaths reg edges).lookup e.id = none ∧
    (calculatePaths regFull edges).lookup e.id =
      some (routeEdge regFull e.from_ e.to_ f t) ∧
    (∀ e' ∈ edges, (calculatePaths reg edges).lookup e'.id = calcEdge reg e') := by
  have hnone : calcEdge reg e = none := by
    unfold calcEdge
    rw [if_neg hvis]
    rcases hmiss with hm | hm
    · rw [hm]
    · cases hfm : reg.lookup e.from_ <;> rw [hm]
  refine ⟨?_, ?_, ?_⟩
  · rw [lookup_calculatePaths reg edges e he hnd, hnone]
  · rw [lookup_calculatePaths regFull edges e he hnd]
    exact calcEdge_some regFull e f t hvis hf ht
  · intro e' he'
    exact lookup_calculatePaths reg edges e' he' hnd

/-- Witness for C6: the edge `shn` from a to b is skipped while only a
is measured (`regMiss`), and produced once both boxes are present
(`regAB`). -/
theorem edge_skipped_when_box_missing_witness :
    (calculatePaths regMiss [edgeShown]).lookup "shn" = none ∧
    (calculatePaths regAB [edgeShown]).lookup "shn" =
      some (routeEdge regAB "a" "b" ⟨0, 0, 100, 120⟩ ⟨300, 0, 100, 120⟩) := by
  have h := edge_skipped_when_box_missing regMiss regAB [edgeShown] edgeShown
    (by simp)
    (by simp)
    (by simp [edgeShown])
    (by
      right
      simp [regMiss, edgeShown, lookup_cons_pair])
    ⟨0, 0, 100, 120⟩ ⟨300, 0, 100, 120⟩
    (by simp [regAB, edgeShown, lookup_cons_pair])
    (by simp [regAB, edgeShown, lookup_cons_pair])
  exact ⟨h.1, h.2.1⟩

/-- C7: the Pulse Animator advances the shared phase by 2 per frame
modulo the period 20 while some visible edge requests pulsing; when no
visible edge pulses, any number of steps leaves the phase frozen at its
current value (not reset to zero); and a frame advances it again as
soon as a pulsing edge is present. -/
theorem pulse_phase_behavior (eOn eOff : List Edge) (phase n : ℕ)
    (hOn : hasPulsing eOn = true) (hOff : hasPulsing eOff = false) :
    pulseFrame eOn phase = (phase + 2) % 20 ∧
    (pulseFrame eOff)^[n] phase = phase ∧
    pulseFrame eOn ((pulseFrame eOff)^[n] phase) = (phase + 2) % 20 := by
  have hfreeze : ∀ m : ℕ, (pulseFrame eOff)^[m] phase = phase := by
    intro m
    induction m with
    | zero => rfl
    | succ k ih =>
        rw [Function.iterate_succ_apply', ih]
        unfold pulseFrame
        rw [hOff]
        simp
  refine ⟨?_, hfreeze n, ?_⟩
  · unfold pulseFrame
    rw [hOn]
    simp
  · rw [hfreeze n]
    unfold pulseFrame
    rw [hOn]
    simp

/-- Witness for C7: with one pulsing visible edge the phase 6 advances
to 8; with no edges it stays 6 across five idle polls and resumes
advancing to 8 when the pulsing edge reappears. -/
theorem pulse_phase_behavior_witness :
    pulseFrame [edgePulse] 6 = 8 ∧
    (pulseFrame [])^[5] 6 = 6 ∧
    pulseFrame [edgePulse] ((pulseFrame [])^[5] 6) = 8 := by
  have h := pulse_phase_behavior [edgePulse] [] 6 5
    (by simp [hasPulsing, edgePulse])
    (by simp [hasPulsing])
  exact h

/-- C8: route computation is deterministic and idempotent - two passes
over the same registry snapshot and edge list produce the same paths
map, the same rendered path strings and the same label positions. -/
theorem route_computation_idempotent
    (reg : List (String × NodeData)) (edges : List Edge) :
    calculatePaths reg edges = calculatePaths reg edges ∧
    renderPass reg edges = renderPass reg edges ∧
    (∀ eid : String,
      (calculatePaths reg edges).lookup eid =
        (calculatePaths reg edges).lookup eid) :=
  ⟨rfl, rfl, fun _ => rfl⟩

theorem fracVal_nonneg (l : List Char) : 0 ≤ fracVal l := by
  induction l with
  | nil => simp [fracVal]
  | cons c cs ih =>
      unfold fracVal
      have h0 : (0 : ℚ) ≤ ((c.toNat - 48 : ℕ) : ℚ) := by positivity
      have hnum : (0 : ℚ) ≤ ((c.toNat - 48 : ℕ) : ℚ) + fracVal cs := by linarith
      positivity

theorem parseFloatFiltered_nonneg (l : List Char) (q : ℚ)
    (h : parseFloatFiltered l = some q) : 0 ≤ q := by
  simp only [parseFloatFiltered] at h
  split at h
  · split_ifs at h
    have hq := Option.some.inj h
    rw [← hq]
    exact add_nonneg (Nat.cast_nonneg _) (fracVal_nonneg _)
  · split_ifs at h
    have hq := Option.some.inj h
    rw [← hq]
    exact Nat.cast_nonneg _

theorem parseCoordChars_nonneg (l : List Char) : 0 ≤ parseCoordChars l := by
  unfold parseCoordChars
  cases hp : parseFloatFiltered (stripNonNum (removeFirstPx l)) with
  | none => simp
  | some q =>
      simpa using parseFloatFiltered_nonneg _ q hp

theorem parseCoord_nonneg (s : String) : 0 ≤ parseCoord s :=
  parseCoordChars_nonneg s.data

theorem lookup_mapSet {α : Type} (m : List (String × α)) (k id : String) (v : α) :
    (mapSet m k v).lookup id = if id = k then some v else m.lookup id := by
  by_cases h : id = k
  · rw [if_pos h, h]
    exact lookup_mapSet_self m k v
  · rw [if_neg h]
    exact lookup_mapSet_ne m k id v h

theorem parseCoord_neg_50px : parseCoord "-50px" = 50 := by
  have h1 : stripNonNum (removeFirstPx ("-50px".data)) = ['5', '0'] := rfl
  unfold parseCoord parseCoordChars
  rw [h1]
  have h2 : parseFloatFiltered ['5', '0'] = some ((50 : ℕ) : ℚ) := rfl
  rw [h2]
  norm_num

theorem reg_fold_preserves (refs : List (String × Option ElModel)) (id : String) :
    ∀ m : List (String × NodeData), (m.lookup id).isSome = true →
      ((refs.foldl
          (fun m p =>
            match p.2 with
            | none => m
            | some el =>
                let nd := measureEl el
                if 0 ≤ nd.x ∧ 0 ≤ nd.y then mapSet m p.1 nd else m)
          m).lookup id).isSome = true := by
  induction refs with
  | nil => intro m hm; exact hm
  | cons p rest ih =>
      intro m hm
      simp only [List.foldl_cons]
      refine ih _ ?_
      obtain ⟨pid, pr⟩ := p
      cases pr with
      | none => simpa using hm
      | some el =>
          dsimp only
          split_ifs with hg
          · rw [lookup_mapSet]
            by_cases hid : id = pid
            · rw [if_pos hid]
              rfl
            · rw [if_neg hid]
              exact hm
          · exact hm

theorem reg_fold_records (refs : List (String × Option ElModel)) (id : String)
    (el : ElModel) :
    ∀ m : List (String × NodeData), (id, some el) ∈ refs →
      ((refs.foldl
          (fun m p =>
            match p.2 with
            | none => m
            | some el =>
                let nd := measureEl el
                if 0 ≤ nd.x ∧ 0 ≤ nd.y then mapSet m p.1 nd else m)
          m).lookup id).isSome = true := by
  induction refs with
  | nil => intro m hm; cases hm
  | cons p rest ih =>
      intro m hm
      simp only [List.foldl_cons]
      rcases List.mem_cons.mp hm with heq | hmem
      · obtain rfl := heq.symm
        dsimp only
        have hg : 0 ≤ (measureEl el).x ∧ 0 ≤ (measureEl el).y :=
          ⟨parseCoord_nonneg el.left, parseCoord_nonneg el.top⟩
        rw [if_pos hg]
        refine reg_fold_preserves rest id _ ?_
        rw [lookup_mapSet_self]
        rfl
      · exact ih _ hmem

theorem reg_fold_values (refs : List (String × Option ElModel)) :
    ∀ m : List (String × NodeData),
      (∀ (id : String) (nd : NodeData), m.lookup id = some nd → 0 ≤ nd.x ∧ 0 ≤ nd.y) →
      ∀ (id : String) (nd : NodeData),
        (refs.foldl
            (fun m p =>
              match p.2 with
              | none => m
              | some el =>
                  let nd := measureEl el
                  if 0 ≤ nd.x ∧ 0 ≤ nd.y then mapSet m p.1 nd else m)
            m).lookup id = some nd → 0 ≤ nd.x ∧ 0 ≤ nd.y := by
  induction refs with
  | nil => intro m hm; exact hm
  | cons p rest ih =>
      intro m hm
      simp only [List.foldl_cons]
      refine ih _ ?_
      obtain ⟨pid, pr⟩ := p
      cases pr with
      | none => exact hm
      | some el =>
          dsimp only
          split_ifs with hg
          · intro id nd hl
            rw [lookup_mapSet] at hl
            by_cases hid : id = pid
            · rw [if_pos hid] at hl
              obtain rfl := Option.some.inj hl
              exact hg
            · rw [if_neg hid] at hl
              exact hm id nd hl
          · exact hm

/-- C9: the position parser strips the minus sign together with every
other non-numeric character and maps unparsable values to 0, so parsed
coordinates are always non-negative ("-50px" reads as 50); hence the
non-negativity guard never fires and a registry refresh records an
entry for every mounted element, and every recorded entry has
non-negative coordinates. -/
theorem registry_refresh_records_all :
    (∀ s : String, 0 ≤ parseCoord s) ∧
    parseCoord "-50px" = 50 ∧
    (∀ (refs : List (String × Option ElModel)) (id : String) (el : ElModel),
      (id, some el) ∈ refs →
      ((updateNodePositions refs).lookup id).isSome = true) ∧
    (∀ (refs : List (String × Option ElModel)) (id : String) (nd : NodeData),
      (updateNodePositions refs).lookup id = some nd → 0 ≤ nd.x ∧ 0 ≤ nd.y) := by
  refine ⟨parseCoord_nonneg, parseCoord_neg_50px, ?_, ?_⟩
  · intro refs id el hmem
    exact reg_fold_records refs id el [] hmem
  · intro refs id nd hl
    refine reg_fold_values refs [] ?_ id nd hl
    intro id' nd' h'
    exact Option.noConfusion h'

/-- Witness for C9: the mounted element n1 with inline position
"-50px"/"10px" is recorded by the refresh pass (its left is parsed as
50, not rejected), and an arbitrary unparsable string parses to a
non-negative value. -/
theorem registry_refresh_records_all_witness :
    ((updateNodePositions refs9).lookup "n1").isSome = true ∧
    0 ≤ parseCoord "auto" ∧
    parseCoord "-50px" = 50 := by
  have h := registry_refresh_records_all
  exact ⟨h.2.2.1 refs9 "n1" ⟨"-50px", "10px", 220, 120⟩ (by simp [refs9]),
    h.1 "auto", h.2.1⟩

/-- C10: the label chip rectangle is exactly centered on the label
anchor for every label length L: twice the left offset min(80, 5L)
equals the width min(160, 10L), so `x - offset + width/2` returns the
anchor x for every anchor position. -/
theorem label_chip_centered (len : ℕ) :
    chipOffset len * 2 = chipWidth len ∧
    chipOffset len = chipWidth len / 2 ∧
    ∀ xq : ℚ, (xq - (chipOffset len : ℚ)) + (chipWidth len : ℚ) / 2 = xq := by
  have h1 : chipOffset len * 2 = chipWidth len := by
    unfold chipOffset chipWidth
    omega
  refine ⟨h1, by omega, ?_⟩
  intro xq
  have hc : (chipWidth len : ℚ) = (chipOffset len : ℚ) * 2 := by
    rw [← h1]
    push_cast
    ring
  rw [hc]
  ring
